import Mathlib

/-!
Verification of the chrome-uploader core against its specification.

Part 1 embeds `src/util.js` (the struct codec): byte buffers are modelled as
total maps `Nat → Int`, JavaScript numbers as `Int` (every value the codec
produces or consumes is an integer in these code paths), and the JavaScript
32-bit bitwise operators (`>>`, `<<`, `& 0xFF`), which operate on the
`ToInt32` coercion of their operands, are modelled explicitly via `toInt32`.
A JavaScript exception (e.g. the `TypeError` raised by dereferencing
`util.structs[c]` for an unknown width code) is modelled as `Except.error`.

Part 2 embeds `src/lib/asante/asanteSimulator.js` (the event simulator).
Event records are JavaScript objects with optional fields; they are modelled
as a structure whose optional fields are `Option`s.  Timestamps are ISO
strings in the source, compared lexicographically by `ensureTimestamp` and
numerically (after `Date.parse`) by the basal handler; both orders agree on
that fixed-width format, so `time` is modelled as a single `Int` in the
device-local millisecond domain and `Date.parse` as the identity.  A thrown
`Error` is modelled by returning `(some message, state)` with the state
exactly as it was at the throw point, matching the mutable-object semantics
of the source.
-/

namespace ChromeUploader

/-! ## Part 1: the struct codec, from `src/util.js` -/

/-- A byte buffer, addressed by integer offset (JS arrays as used by the
codec: reads and writes at arbitrary indices). -/
abbrev Buf := Nat → Int

/-- JavaScript `ToInt32`: reduce mod 2^32 into the signed range
`[-2^31, 2^31)`.  All JS bitwise operators apply this to their operands. -/
def toInt32 (v : Int) : Int := (v + 2^31) % 2^32 - 2^31

/-- JavaScript `v & 0xFF`: the low 8 bits of `ToInt32(v)` (as a non-negative
number, since the mask is positive). -/
def jsAnd255 (v : Int) : Int := toInt32 v % 256

/-- JavaScript `v >> n` for a constant `n`: arithmetic (sign-extending) right
shift of `ToInt32(v)`, i.e. floor division by `2^n` (Lean's `Int` division
is floor division for a positive divisor). -/
def jsShr (v : Int) (n : Nat) : Int := toInt32 v / 2 ^ n

/-- JavaScript `v << n` for a constant `n`: left shift of `ToInt32(v)`
truncated back to 32 bits. -/
def jsShl (v : Int) (n : Nat) : Int := toInt32 (toInt32 v * 2 ^ n)

/-- A single assignment `b[i] = v` on a buffer. -/
def writeByte (b : Buf) (i : Nat) (v : Int) : Buf := fun j => if j = i then v else b j

/-- The accumulation loop of `extractString`, from `src/util.js`:
`for (var i=start; i<len; ++i) { s += String.fromCharCode(bytes[i]); }`.
The loop is compiled structurally on its iteration count `fuel = len - i`,
so a call with `fuel = l - start` runs `i` over `[start, l)` exactly as the
source does.  Reading past the end of a JS array yields `undefined`, which
`String.fromCharCode` coerces to code unit 0; hence `getD _ 0`. -/
def extractStringGo (bytes : List Nat) : Nat → Nat → String → String
  | 0, _, s => s
  | fuel + 1, i, s => extractStringGo bytes fuel (i + 1) (s.push (Char.ofNat (bytes.getD i 0)))

/-- Embeds `util.extractString(bytes, start, len)` from `src/util.js`.  The `len`
argument is optional (`Option`); `if (!len)` replaces a missing — or zero,
zero being falsy — `len` by `bytes.length`.  Note the loop bound: the source
iterates `i` from `start` up to `len` (exclusive), not `start + len`. -/
def extractString (bytes : List Nat) (start : Nat) (len : Option Nat) : String :=
  let l := match len with
    | none => bytes.length
    | some n => if n = 0 then bytes.length else n
  extractStringGo bytes (l - start) start ""

/-- Embeds `util.extractInt` from `src/util.js`: little-endian 4-byte read.  The
most significant byte is combined by multiplication with 16777216 = 2^24
(not a shift) precisely to avoid the 32-bit signed overflow; the two middle
bytes use the JS `<<` operator. -/
def extractInt (b : Buf) (st : Nat) : Int :=
  16777216 * b (st+3) + jsShl (b (st+2)) 16 + jsShl (b (st+1)) 8 + b st

/-- Embeds `util.extractShort` from `src/util.js`: little-endian 2-byte read. -/
def extractShort (b : Buf) (st : Nat) : Int := jsShl (b (st+1)) 8 + b st

/-- Embeds `util.extractByte` from `src/util.js`. -/
def extractByte (b : Buf) (st : Nat) : Int := b st

/-- Embeds `util.storeInt` from `src/util.js`: little-endian 4-byte write, each
byte obtained by JS right shift and `& 0xFF`. -/
def storeInt (v : Int) (b : Buf) (st : Nat) : Buf :=
  writeByte (writeByte (writeByte (writeByte b st (jsAnd255 v))
    (st+1) (jsAnd255 (jsShr v 8))) (st+2) (jsAnd255 (jsShr v 16))) (st+3) (jsAnd255 (jsShr v 24))

/-- Embeds `util.storeShort` from `src/util.js`. -/
def storeShort (v : Int) (b : Buf) (st : Nat) : Buf :=
  writeByte (writeByte b st (jsAnd255 v)) (st+1) (jsAnd255 (jsShr v 8))

/-- Embeds `util.storeByte` from `src/util.js`. -/
def storeByte (v : Int) (b : Buf) (st : Nat) : Buf := writeByte b st (jsAnd255 v)

/-- One entry of the `util.structs` table: field width in bytes, the store
routine and the extract routine it dispatches to. -/
structure StructInfo where
  len : Nat
  put : Int → Buf → Nat → Buf
  get : Buf → Nat → Int

/-- The `util.structs` table from `src/util.js`.  A width code outside
`{I, s, b}` has no entry: in JS, `util.structs[c]` is `undefined` and any
use of it throws a `TypeError`. -/
def structs : Char → Option StructInfo
  | 'I' => some ⟨4, storeInt, extractInt⟩
  | 's' => some ⟨2, storeShort, extractShort⟩
  | 'b' => some ⟨1, storeByte, extractByte⟩
  | _ => none

/-- Embeds `util.structlen` from `src/util.js`: total byte length of a format
string.  Dereferencing `util.structs[s[i]].len` for an unknown code throws
(`Except.error`). -/
def structlen : List Char → Except String Nat
  | [] => .ok 0
  | c :: rest =>
    match structs c with
    | none => .error "TypeError: cannot read properties of undefined"
    | some info => do
      let t ← structlen rest
      .ok (info.len + t)

/-- The loop of `util.pack`: for each format character, look up the struct
entry (throwing on an unknown code) and store the next value, advancing the
byte counter `ctr`.  `pack` only calls this with as many values as format
characters; were a value missing, JS would store `undefined`, which the
bitwise operators coerce to 0. -/
def packLoop (offset : Nat) : List Char → List Int → Buf → Nat → Except String (Nat × Buf)
  | [], _, buf, ctr => .ok (ctr, buf)
  | c :: cs, vs, buf, ctr =>
    match structs c with
    | none => .error "TypeError: cannot read properties of undefined"
    | some info =>
      packLoop offset cs vs.tail (info.put (vs.headD 0) buf (offset + ctr)) (ctr + info.len)

/-- Embeds `util.pack(buf, offset, format, v1, v2, ...)` from `src/util.js`.  The
extra arguments are gathered into `values`.  On an arity mismatch the source
logs `"Bad args to pack!"` and returns `0` without touching the buffer —
there is no exception.  Otherwise it first evaluates
`var len = util.structlen(format)` (unused, but it can throw on an unknown
code) and then runs the store loop, returning the byte count `ctr`. -/
def pack (buf : Buf) (offset : Nat) (format : List Char) (values : List Int) :
    Except String (Nat × Buf) :=
  if format.length ≠ values.length then
    .ok (0, buf)
  else do
    let _ ← structlen format
    packLoop offset format values buf 0

/-- The loop of `util.unpack`: for each format character, look up the struct
entry (throwing on an unknown code) and read the named field, advancing
`ctr`.  Fields are accumulated in insertion order.  `unpack` only calls
this with as many names as format characters. -/
def unpackLoop (buf : Buf) (offset : Nat) :
    List Char → List String → Nat → List (String × Int) → Except String (List (String × Int) × Nat)
  | [], _, ctr, acc => .ok (acc, ctr)
  | c :: cs, ns, ctr, acc =>
    match structs c with
    | none => .error "TypeError: cannot read properties of undefined"
    | some info =>
      unpackLoop buf offset cs ns.tail (ctr + info.len)
        (acc ++ [(ns.headD "", info.get buf (offset + ctr))])

/-- Embeds `util.unpack(buf, offset, format, names)` from `src/util.js`.  On an
arity mismatch the source logs `"Bad args to unpack!"` and returns the empty
object `{}` — there is no exception.  Otherwise it reads each field and
finally sets `result.unpack_length = ctr`. -/
def unpack (buf : Buf) (offset : Nat) (format : List Char) (names : List String) :
    Except String (List (String × Int)) :=
  if format.length ≠ names.length then
    .ok []
  else do
    let (fields, ctr) ← unpackLoop buf offset format names 0 []
    .ok (fields ++ [("unpack_length", (ctr : Int))])

/-- The all-zero buffer, used as a concrete input. -/
def bufZero : Buf := fun _ => 0

/-! ## Part 2: the event simulator, from `src/lib/asante/asanteSimulator.js` -/

/-- A wizard record's embedded bolus, as inspected by `getEvents`'s filter:
only its `normal` and `expectedNormal` fields are ever read.  Both are
optional (JS objects may lack them); `=== 0` on a missing field is false,
so `Option Int` with `none` for "absent" is faithful. -/
structure EmbBolus where
  normal : Option Int := none
  expectedNormal : Option Int := none
deriving DecidableEq

/-- The fields of an event record other than `previous`; equivalently, the
snapshot `_.omit(record, 'previous')` produces.  Fields the simulator never
reads are not modelled (they are carried through unchanged either way);
every field it does read is present, `Option` marking JS absence. -/
structure EventCore where
  type : String
  time : Int
  duration : Option Int := none
  scheduleName : Option String := none
  normal : Option Int := none
  expectedNormal : Option Int := none
  bolus : Option EmbBolus := none
deriving DecidableEq

/-- An event record: an `EventCore` plus the optional `previous` link, which
holds a snapshot (itself without a `previous` field) of the prior closed
basal segment. -/
structure Event extends EventCore where
  previous : Option EventCore := none
deriving DecidableEq

/-- Modelled from the spec: lodash's `_.omit(record, 'previous')` — "a
snapshot of `openBasal` excluding any `previous` field" — is the projection
onto the non-`previous` fields.  (lodash is a library dependency, not in
`src/`.) -/
def omitPrevious (e : Event) : EventCore := e.toEventCore

/-- The simulator's closure state: the accumulated `events` array, the
current open basal segment `currBasal`, and `currTimestamp`, all initially
empty/null. -/
structure SimState where
  events : List Event
  currBasal : Option Event
  currTimestamp : Option Int
deriving DecidableEq

/-- The initial state of `exports.make`: `events = []`, `currBasal = null`,
`currTimestamp = null`. -/
def initState : SimState := ⟨[], none, none⟩

/-- Embeds `ensureTimestamp` from `src/lib/asante/asanteSimulator.js`: throw if
`currTimestamp > e.time`, else record `e.time` as the new `currTimestamp`.
When `currTimestamp` is still `null`, the JS comparison `null > time` is
false, so the event is accepted.  The thrown message interpolates the
current timestamp and event; the constant prefix stands for it here. -/
def ensureTimestamp (e : Event) (s : SimState) : Option String × SimState :=
  match s.currTimestamp with
  | some t =>
    if t > e.time then
      ("Timestamps must be in order.", s)
    else
      (none, { s with currTimestamp := some e.time })
  | none => (none, { s with currTimestamp := some e.time })

/-- Embeds `simpleSimulate` from `src/lib/asante/asanteSimulator.js`: enforce the
ordering invariant, then push the event unchanged. -/
def simpleSimulate (e : Event) (s : SimState) : Option String × SimState :=
  match ensureTimestamp e s with
  | (some err, s1) => (some err, s1)
  | (none, s1) => (none, { s1 with events := s1.events ++ [e] })

/-- The `basal` handler from `src/lib/asante/asanteSimulator.js`.

Modelled from the spec: the tidepool objectBuilder behind `currBasal` is not
in `src/`; per the spec, `isAssigned('duration')` tests whether `duration`
is set ("If `openBasal.duration` is unset"), `with_duration` and
`with_scheduleName` assign the named field ("compute `duration = ...` and
assign it", "Set `openBasal.scheduleName = \x22Unknown\x22"), and `done()`
finalizes the object without changing its fields.  `Date.parse` on the two
ISO timestamps is the identity in the `Int` time model.

The source, after `ensureTimestamp`: if a `currBasal` exists, give it a
duration when unset, set its `scheduleName` to `'Unknown'`, attach
`_.omit(currBasal, 'previous')` as `event.previous`, push the closed
`currBasal`, and in every case set `currBasal = event`. -/
def basal (event : Event) (s : SimState) : Option String × SimState :=
  match ensureTimestamp event s with
  | (some err, s1) => (some err, s1)
  | (none, s1) =>
    match s1.currBasal with
    | some cb =>
      let cb1 := if cb.duration = none
        then { cb with duration := some (event.time - cb.time) } else cb
      let closed := { cb1 with scheduleName := some "Unknown" }
      let event1 := { event with previous := some (omitPrevious closed) }
      (none, { s1 with events := s1.events ++ [closed], currBasal := some event1 })
    | none => (none, { s1 with currBasal := some event })

/-- Embeds `finalBasal` from `src/lib/asante/asanteSimulator.js`: an empty
function body — it reads nothing and changes nothing. -/
def finalBasal (s : SimState) : SimState := s

/-- The ten per-event entry points of the simulator object. -/
inductive Handler
  | alarm
  | basal
  | bolus
  | changeDeviceTime
  | changeReservoir
  | resume
  | settings
  | smbg
  | suspend
  | wizard
deriving DecidableEq

/-- Dispatch to each handler exactly as the source does: `basal` runs the
basal algorithm; every other handler is `simpleSimulate`. -/
def handle : Handler → Event → SimState → Option String × SimState
  | .alarm, e, s => simpleSimulate e s
  | .basal, e, s => basal e s
  | .bolus, e, s => simpleSimulate e s
  | .changeDeviceTime, e, s => simpleSimulate e s
  | .changeReservoir, e, s => simpleSimulate e s
  | .resume, e, s => simpleSimulate e s
  | .settings, e, s => simpleSimulate e s
  | .smbg, e, s => simpleSimulate e s
  | .suspend, e, s => simpleSimulate e s
  | .wizard, e, s => simpleSimulate e s

/-- JavaScript truthiness of an optional numeric field: `undefined` is
falsy, a number is falsy exactly when it is `0` (`NaN`, the only other
falsy number, has no counterpart in the integer model). -/
def truthy : Option Int → Bool
  | none => false
  | some x => x ≠ 0

/-- The filter callback inside `getEvents` of
`src/lib/asante/asanteSimulator.js`: drop a `bolus` whose `normal === 0`
with falsy `expectedNormal`; apply the same test to a `wizard`'s embedded
bolus when present (`event.bolus || null`, an object being truthy); keep
everything else. -/
def keepEvent (event : Event) : Bool :=
  if event.type = "bolus" then
    if event.normal = some 0 ∧ truthy event.expectedNormal = false then false else true
  else if event.type = "wizard" then
    match event.bolus with
    | some bolus =>
      if bolus.normal = some 0 ∧ truthy bolus.expectedNormal = false then false else true
    | none => true
  else true

/-- The sort key comparison of `_.sortBy(..., function(e) { return e.time; })`:
ascending by `time`. -/
def timeLE (a b : Event) : Bool := a.time ≤ b.time

/-- Modelled from the spec: lodash's `_.sortBy` (a library dependency, not
in `src/`) is "a stable sort ... ascending by `time` (ties preserve
original relative order)".  A stable sort by a key is extensionally unique,
so the stable `List.mergeSort` is a faithful model. -/
def sortByTime (l : List Event) : List Event := l.mergeSort timeLE

/-- Embeds `getEvents` from `src/lib/asante/asanteSimulator.js`: filter, then
stable-sort by `time`; the internal log is not modified. -/
def getEvents (s : SimState) : List Event := sortByTime (s.events.filter keepEvent)

/-- A call made against the simulator object: one of the ten event handlers
applied to an event record, or `finalBasal()`. -/
inductive Cmd
  | evt (h : Handler) (e : Event)
  | finalB

/-- Execute one call.  A thrown ordering error leaves the simulator object
in the state it had at the throw point (which, the throw happening before
any mutation, is the pre-call state), and the caller may go on using it. -/
def stepCmd (s : SimState) : Cmd → SimState
  | .evt h e => (handle h e s).2
  | .finalB => finalBasal s

/-- Feed a sequence of calls to a fresh simulator. -/
def run (cmds : List Cmd) : SimState := cmds.foldl stepCmd initState

/-- Runs `stepCmd` instrumented with a counter of the basal-handler calls that
were accepted (did not throw). -/
def stepCount (p : SimState × Nat) : Cmd → SimState × Nat
  | .evt h e =>
    ((handle h e p.1).2,
      p.2 + (if h = Handler.basal ∧ (handle h e p.1).1 = none then 1 else 0))
  | .finalB => (finalBasal p.1, p.2)

/-- Runs `run` instrumented with the count of accepted basal-handler calls. -/
def runCount (cmds : List Cmd) : SimState × Nat := cmds.foldl stepCount (initState, 0)

/-- Number of records of basal type in a list. -/
def basalCount (l : List Event) : Nat := l.countP (fun e => e.type = "basal")

/-- A call is well-typed when the event's `type` tag matches the handler it
is delivered to — here only the part the basal accounting needs: an event
is tagged `"basal"` exactly when it goes to the `basal` handler. -/
def wellTypedCmd : Cmd → Prop
  | .evt h e => e.type = "basal" ↔ h = Handler.basal
  | .finalB => True

/-! ## Spec-side description and concrete fixtures -/

/-- Stated from the claim's words, for comparison with `extractString`: the
string whose characters have codes `bytes[i]` for `i` in `[start, l)`. -/
def codesBetween (bytes : List Nat) (start l : Nat) : String :=
  String.mk ((List.range' start (l - start)).map (fun i => Char.ofNat (bytes.getD i 0)))

/-- A bolus record with `normal = 0` and `expectedNormal` present but `0`. -/
def bolusZeroExp : Event := { type := "bolus", time := 0, normal := some 0, expectedNormal := some 0 }

/-- A wizard record embedding a bolus with `normal = 0` and `expectedNormal`
present but `0`. -/
def wizardZeroExp : Event :=
  { type := "wizard", time := 0, bolus := some { normal := some 0, expectedNormal := some 0 } }

/-- A basal event whose `scheduleName` is explicitly set on arrival. -/
def basalNamed : Event := { type := "basal", time := 0, scheduleName := some "Standard" }

/-- A later plain basal event, closing the previous segment. -/
def basalLater : Event := { type := "basal", time := 1800000 }

/-- A plain alarm event. -/
def alarmAt3 : Event := { type := "alarm", time := 3 }

/-- A basal segment open at time 5 with no duration assigned. -/
def openBasal5 : Event := { type := "basal", time := 5 }

/-- A simulator state with an open basal segment and last timestamp 5. -/
def stateOpen5 : SimState := { events := [], currBasal := some openBasal5, currTimestamp := some 5 }

/-- A basal event at time 12. -/
def basalAt12 : Event := { type := "basal", time := 12 }

/-- A state holding one dropped-class bolus record. -/
def stateBolusZero : SimState := { events := [bolusZeroExp], currBasal := none, currTimestamp := some 0 }

/-- A state holding one dropped-class wizard record. -/
def stateWizardZero : SimState := { events := [wizardZeroExp], currBasal := none, currTimestamp := some 0 }

/-- A command sequence: two basal segments with an alarm in between. -/
def cmdsTwoBasals : List Cmd :=
  [Cmd.evt Handler.basal basalNamed, Cmd.evt Handler.alarm alarmAt3, Cmd.evt Handler.basal basalLater]

/-! ## Theorems -/

/-- C5: codec round-trip.  For every value within a field's declared width
range, decoding the bytes produced by encoding it yields the value back: a
4-byte `'I'` field round-trips every `v ∈ [0, 2^32 - 1]` — including
`v ≥ 2^31`, with no sign flip into a negative number — and likewise the
2-byte `'s'` and 1-byte `'b'` fields on their ranges. -/
theorem extract_store_roundtrip (v : Int) (b : Buf) (st : Nat) :
    (0 ≤ v → v < 2^32 → extractInt (storeInt v b st) st = v) ∧
    (0 ≤ v → v < 2^16 → extractShort (storeShort v b st) st = v) ∧
    (0 ≤ v → v < 2^8 → extractByte (storeByte v b st) st = v) := by
  refine ⟨fun h0 h1 => ?_, fun h0 h1 => ?_, fun h0 h1 => ?_⟩
  · have r0 : storeInt v b st st = jsAnd255 v := by
      simp [storeInt, writeByte]
    have r1 : storeInt v b st (st+1) = jsAnd255 (jsShr v 8) := by
      simp [storeInt, writeByte]
    have r2 : storeInt v b st (st+2) = jsAnd255 (jsShr v 16) := by
      simp [storeInt, writeByte]
    have r3 : storeInt v b st (st+3) = jsAnd255 (jsShr v 24) := by
      simp [storeInt, writeByte]
    rw [extractInt, r0, r1, r2, r3]
    simp only [jsAnd255, jsShr, jsShl, toInt32]
    omega
  · have r0 : storeShort v b st st = jsAnd255 v := by
      simp [storeShort, writeByte]
    have r1 : storeShort v b st (st+1) = jsAnd255 (jsShr v 8) := by
      simp [storeShort, writeByte]
    rw [extractShort, r0, r1]
    simp only [jsAnd255, jsShr, jsShl, toInt32]
    omega
  · simp [extractByte, storeByte, writeByte]
    simp only [jsAnd255, toInt32]
    omega

/-- Witness for C5: the round-trip evaluated at `v = 3000000000 ≥ 2^31` for
the 4-byte field, `v = 40000` for the 2-byte field and `v = 200` for the
1-byte field. -/
theorem extract_store_roundtrip_witness :
    (0 ≤ (3000000000 : Int) ∧ (3000000000 : Int) < 2^32 ∧
      extractInt (storeInt 3000000000 bufZero 2) 2 = 3000000000) ∧
    (0 ≤ (40000 : Int) ∧ (40000 : Int) < 2^16 ∧
      extractShort (storeShort 40000 bufZero 2) 2 = 40000) ∧
    (0 ≤ (200 : Int) ∧ (200 : Int) < 2^8 ∧
      extractByte (storeByte 200 bufZero 2) 2 = 200) :=
  ⟨⟨by decide, by decide,
      (extract_store_roundtrip 3000000000 bufZero 2).1 (by decide) (by decide)⟩,
    ⟨by decide, by decide,
      (extract_store_roundtrip 40000 bufZero 2).2.1 (by decide) (by decide)⟩,
    ⟨by decide, by decide,
      (extract_store_roundtrip 200 bufZero 2).2.2 (by decide) (by decide)⟩⟩

/-- C6 counterexample: at descriptor `['I']` with an empty value list and an
empty name list the arity differs (1 ≠ 0), yet neither operation aborts
with an error: `pack` returns the ordinary result `0` with the buffer
untouched, and `unpack` returns the ordinary empty result — exactly the
degraded outputs the claim rules out. -/
theorem pack_unpack_arity_counterexample :
    pack bufZero 0 ['I'] [] = Except.ok (0, bufZero) ∧
    unpack bufZero 0 ['I'] [] = Except.ok [] :=
  ⟨rfl, rfl⟩

/-- C6 amended: on every arity mismatch, `pack` logs and returns `0` with
the buffer unmodified, and `unpack` logs and returns the empty result; the
operation completes normally (no error) instead of failing loudly. -/
theorem pack_unpack_arity_mismatch (buf : Buf) (offset : Nat) (format : List Char)
    (values : List Int) (names : List String) :
    (format.length ≠ values.length → pack buf offset format values = Except.ok (0, buf)) ∧
    (format.length ≠ names.length → unpack buf offset format names = Except.ok []) := by
  constructor
  · intro h
    rw [pack, if_pos h]
  · intro h
    rw [unpack, if_pos h]

/-- Witness for the amended C6, at descriptor `['I']` against no values and
two names. -/
theorem pack_unpack_arity_mismatch_witness :
    ((['I'].length ≠ ([] : List Int).length) ∧ pack bufZero 3 ['I'] [] = Except.ok (0, bufZero)) ∧
    ((['I'].length ≠ ["a", "b"].length) ∧ unpack bufZero 3 ['I'] ["a", "b"] = Except.ok []) :=
  ⟨⟨by decide, (pack_unpack_arity_mismatch bufZero 3 ['I'] [] ["a", "b"]).1 (by decide)⟩,
    ⟨by decide, (pack_unpack_arity_mismatch bufZero 3 ['I'] [] ["a", "b"]).2 (by decide)⟩⟩

/-- C7 counterexample: on `bytes = [65, 66, 67]`, `start = 1`, `len = 2` the
claim demands the 2 characters at indices 1 and 2, i.e. `"BC"`; the source
loop runs `i` from `start` to `len` (exclusive) and returns the single
character `"B"`. -/
theorem extractString_counterexample :
    extractString [65, 66, 67] 1 (some 2) = "B" ∧ ("B" : String) ≠ "BC" :=
  ⟨rfl, by decide⟩

/-- The loop of `extractString` appends the characters with codes
`bytes[i], ..., bytes[i+n-1]` to the accumulator. -/
lemma extractStringGo_eq (bytes : List Nat) :
    ∀ (n i : Nat) (s : String),
      extractStringGo bytes n i s =
        ⟨s.data ++ (List.range' i n).map (fun j => Char.ofNat (bytes.getD j 0))⟩ := by
  intro n
  induction n with
  | zero =>
    intro i s
    simp [extractStringGo]
  | succ m ih =>
    intro i s
    rw [extractStringGo, ih, List.range'_succ]
    simp [String.push]

/-- C7 amended: `extractString bytes start len` returns the characters whose
codes are `bytes[start], ..., bytes[len - 1]` — the third argument is an
exclusive end index, not a count — and when `len` is not supplied (or is
`0`, which JS treats as absent) it defaults to `bytes.length`, i.e. the
remaining buffer from `start` to the end. -/
theorem extractString_spec (bytes : List Nat) (start : Nat) :
    (∀ n : Nat, n ≠ 0 →
      extractString bytes start (some n) = codesBetween bytes start n) ∧
    extractString bytes start none = codesBetween bytes start bytes.length ∧
    extractString bytes start (some 0) = codesBetween bytes start bytes.length := by
  refine ⟨fun n hn => ?_, ?_, ?_⟩
  · rw [extractString]
    simp only [if_neg hn]
    rw [extractStringGo_eq, codesBetween]
    simp
  · rw [extractString, extractStringGo_eq, codesBetween]
    simp
  · rw [extractString]
    simp only [if_pos rfl]
    rw [extractStringGo_eq, codesBetween]
    simp

/-- Witness for the amended C7: on `bytes = [65, 66, 67]`, `start = 1`,
`len = 2`, the result is the character range `[1, 2)`, namely `"B"`. -/
theorem extractString_spec_witness :
    (2 : Nat) ≠ 0 ∧
      extractString [65, 66, 67] 1 (some 2) = codesBetween [65, 66, 67] 1 2 :=
  ⟨by decide, (extractString_spec [65, 66, 67] 1).1 2 (by decide)⟩

/-- An out-of-order event makes `ensureTimestamp` throw, leaving the state
untouched. -/
lemma ensureTimestamp_throw {e : Event} {s : SimState} {t : Int}
    (ht : s.currTimestamp = some t) (hlt : e.time < t) :
    ensureTimestamp e s = (some "Timestamps must be in order.", s) := by
  simp [ensureTimestamp, ht, hlt]

/-- An in-order event (or one arriving when `currTimestamp` is unset)
passes `ensureTimestamp`, which records its time. -/
lemma ensureTimestamp_ok {e : Event} {s : SimState}
    (h : s.currTimestamp = none ∨ ∃ t, s.currTimestamp = some t ∧ t ≤ e.time) :
    ensureTimestamp e s = (none, { s with currTimestamp := some e.time }) := by
  rcases h with hn | ⟨t, ht, hle⟩
  · simp [ensureTimestamp, hn]
  · simp [ensureTimestamp, ht, if_neg (not_lt.mpr hle)]

/-- Whatever `ensureTimestamp` does, it never touches the log or the open
basal segment. -/
lemma ensureTimestamp_preserves (e : Event) (s : SimState) :
    (ensureTimestamp e s).2.events = s.events ∧
      (ensureTimestamp e s).2.currBasal = s.currBasal := by
  rw [ensureTimestamp]
  cases s.currTimestamp with
  | none => exact ⟨rfl, rfl⟩
  | some t =>
    by_cases hlt : t > e.time
    · simp [hlt]
    · simp [hlt]

/-- C2: for every one of the ten handlers, an event older than the last
accepted timestamp raises the ordering violation and leaves the simulator's
state (log, open basal, last timestamp) exactly as it was — in particular
the event is not appended; an event arriving when the last timestamp is
unset, or at or after it, is accepted without error. -/
theorem handlers_ordering (h : Handler) (e : Event) (s : SimState) :
    (∀ t, s.currTimestamp = some t → e.time < t →
      handle h e s = (some "Timestamps must be in order.", s)) ∧
    (s.currTimestamp = none → (handle h e s).1 = none) ∧
    (∀ t, s.currTimestamp = some t → t ≤ e.time → (handle h e s).1 = none) := by
  refine ⟨fun t ht hlt => ?_, fun hn => ?_, fun t ht hle => ?_⟩
  · cases h <;> simp [handle, simpleSimulate, basal, ensureTimestamp_throw ht hlt]
  · cases h <;>
      simp [handle, simpleSimulate, basal, ensureTimestamp_ok (Or.inl hn)] <;>
      cases s.currBasal <;> simp
  · cases h <;>
      simp [handle, simpleSimulate, basal, ensureTimestamp_ok (Or.inr ⟨t, ht, hle⟩)] <;>
      cases s.currBasal <;> simp

/-- Witness for C2: with last accepted timestamp 5, an alarm at time 3 is
rejected with the state unchanged, and a basal at time 12 is accepted. -/
theorem handlers_ordering_witness :
    (stateOpen5.currTimestamp = some 5 ∧ alarmAt3.time < 5 ∧
      handle Handler.alarm alarmAt3 stateOpen5 =
        (some "Timestamps must be in order.", stateOpen5)) ∧
    (stateOpen5.currTimestamp = some 5 ∧ (5 : Int) ≤ basalAt12.time ∧
      (handle Handler.basal basalAt12 stateOpen5).1 = none) :=
  ⟨⟨rfl, by decide,
      (handlers_ordering Handler.alarm alarmAt3 stateOpen5).1 5 rfl (by decide)⟩,
    ⟨rfl, by decide,
      (handlers_ordering Handler.basal basalAt12 stateOpen5).2.2 5 rfl (by decide)⟩⟩

/-- C1: the basal closing algorithm.  Feeding a basal event `B` that is in
order (`B.time` at or after the last accepted timestamp, when one exists):
with no open segment, the handler merely installs `B` as the open segment;
with an open segment `cb`, it closes `cb` — giving it duration
`B.time - cb.time` exactly when its duration was unset, setting its
`scheduleName` to `"Unknown"`, leaving every other field as it was —
attaches the snapshot of the closed segment without its `previous` field as
`B.previous`, appends the closed segment to the log, and installs the
(mutated) `B` as the new open segment. -/
theorem basal_close (s : SimState) (B : Event)
    (hts : ∀ t, s.currTimestamp = some t → t ≤ B.time) :
    (s.currBasal = none →
      basal B s = (none, { s with currBasal := some B, currTimestamp := some B.time })) ∧
    (∀ cb, s.currBasal = some cb →
      ∃ closed B1,
        basal B s =
          (none, { events := s.events ++ [closed], currBasal := some B1,
                   currTimestamp := some B.time }) ∧
        closed.duration =
          (if cb.duration = none then some (B.time - cb.time) else cb.duration) ∧
        closed.scheduleName = some "Unknown" ∧
        closed.type = cb.type ∧ closed.time = cb.time ∧ closed.normal = cb.normal ∧
        closed.expectedNormal = cb.expectedNormal ∧ closed.bolus = cb.bolus ∧
        closed.previous = cb.previous ∧
        B1 = { B with previous := some (omitPrevious closed) }) := by
  have hok : ensureTimestamp B s = (none, { s with currTimestamp := some B.time }) := by
    cases hct : s.currTimestamp with
    | none => exact ensureTimestamp_ok (Or.inl hct)
    | some t => exact ensureTimestamp_ok (Or.inr ⟨t, hct, hts t hct⟩)
  constructor
  · intro hnone
    simp [basal, hok, hnone]
  · intro cb hcb
    refine ⟨{ type := cb.type, time := cb.time,
              duration := if cb.duration = none then some (B.time - cb.time) else cb.duration,
              scheduleName := some "Unknown", normal := cb.normal,
              expectedNormal := cb.expectedNormal, bolus := cb.bolus,
              previous := cb.previous },
            _, ?_, rfl, rfl, rfl, rfl, rfl, rfl, rfl, rfl, rfl⟩
    simp only [basal, hok, hcb]
    by_cases hd : cb.duration = none <;> simp [hd]

/-- Witness for C1: closing the open segment at time 5 (no duration
assigned) with a basal event at time 12 computes duration 7, renames the
schedule to `"Unknown"`, links the snapshot, appends the closed segment and
installs the new event. -/
theorem basal_close_witness :
    (∀ t, stateOpen5.currTimestamp = some t → t ≤ basalAt12.time) ∧
    (∃ closed B1,
      basal basalAt12 stateOpen5 =
        (none, { events := stateOpen5.events ++ [closed], currBasal := some B1,
                 currTimestamp := some basalAt12.time }) ∧
      closed.duration =
        (if openBasal5.duration = none then some (basalAt12.time - openBasal5.time)
          else openBasal5.duration) ∧
      closed.scheduleName = some "Unknown" ∧
      closed.type = openBasal5.type ∧ closed.time = openBasal5.time ∧
      closed.normal = openBasal5.normal ∧
      closed.expectedNormal = openBasal5.expectedNormal ∧
      closed.bolus = openBasal5.bolus ∧
      closed.previous = openBasal5.previous ∧
      B1 = { basalAt12 with previous := some (omitPrevious closed) }) :=
  ⟨fun t ht => by cases ht; decide,
    (basal_close stateOpen5 basalAt12 (fun t ht => by cases ht; decide)).2 openBasal5 rfl⟩

/-- C9 counterexample: `basalNamed` arrives with `scheduleName` explicitly
set to `"Standard"`; after the next basal closes it, the closed segment in
the log carries `"Unknown"`, not the explicitly set name — closing
overwrites `scheduleName` unconditionally. -/
theorem basal_scheduleName_counterexample :
    basalNamed.scheduleName = some "Standard" ∧
    ((run cmdsTwoBasals).events.map fun e => e.scheduleName) = [none, some "Unknown"] ∧
    (some "Unknown" : Option String) ≠ some "Standard" :=
  ⟨rfl, by decide, by decide⟩

/-- C9 amended: every closed (non-final) basal segment's `scheduleName`
equals `"Unknown"` — the handler assigns the sentinel unconditionally when
closing, overwriting any name set earlier. -/
theorem basal_close_unknown (s : SimState) (B cb : Event) (s1 : SimState)
    (hcb : s.currBasal = some cb) (hok : basal B s = (none, s1)) :
    ∃ closed, s1.events = s.events ++ [closed] ∧ closed.scheduleName = some "Unknown" := by
  rcases het : ensureTimestamp B s with ⟨err?, s0⟩
  have hpres := ensureTimestamp_preserves B s
  rw [het] at hpres
  cases err? with
  | some err =>
    simp only [basal, het] at hok
    simp at hok
  | none =>
    have hcb0 : s0.currBasal = some cb := hpres.2.trans hcb
    simp only [basal, het, hcb0] at hok
    have h2 := congrArg Prod.snd hok
    simp only at h2
    refine ⟨{ (if cb.duration = none then { cb with duration := some (B.time - cb.time) }
        else cb : Event) with scheduleName := some "Unknown" }, ?_, rfl⟩
    rw [← h2]
    simp
    exact hpres.1

/-- Witness for the amended C9: closing the segment open at time 5 with the
basal at time 12 appends a segment whose `scheduleName` is `"Unknown"`. -/
theorem basal_close_unknown_witness :
    stateOpen5.currBasal = some openBasal5 ∧
    basal basalAt12 stateOpen5 = (none, (basal basalAt12 stateOpen5).2) ∧
    ∃ closed, (basal basalAt12 stateOpen5).2.events = stateOpen5.events ++ [closed] ∧
      closed.scheduleName = some "Unknown" :=
  ⟨rfl, by decide,
    basal_close_unknown stateOpen5 basalAt12 openBasal5 (basal basalAt12 stateOpen5).2
      rfl (by decide)⟩

/-- The characterization of `truthy ... = false`: the field is absent or `0`. -/
lemma truthy_eq_false {o : Option Int} :
    truthy o = false ↔ o = none ∨ o = some 0 := by
  cases o with
  | none => simp [truthy]
  | some x => simp [truthy]

/-- Membership in `getEvents` is membership in the log together with the
filter predicate (the sort is a permutation). -/
lemma mem_getEvents_iff {s : SimState} {e : Event} (he : e ∈ s.events) :
    e ∈ getEvents s ↔ keepEvent e = true := by
  rw [getEvents, sortByTime, List.mem_mergeSort, List.mem_filter]
  simp [he]

/-- C3 counterexample: a bolus with `normal = 0` whose `expectedNormal`
field is present (set to `0`) is nevertheless dropped from `getEvents()`,
although the claim says a bolus with `expectedNormal` set is present. -/
theorem getEvents_filter_counterexample :
    bolusZeroExp.normal = some 0 ∧ bolusZeroExp.expectedNormal = some 0 ∧
    getEvents stateBolusZero = [] := by
  refine ⟨rfl, rfl, ?_⟩
  have h1 : stateBolusZero.events.filter keepEvent = [] := by decide
  rw [getEvents, h1, sortByTime]
  exact List.mergeSort_nil

/-- C3 amended: a bolus record in the log is dropped from `getEvents()` iff
its `normal` equals `0` and its `expectedNormal` is absent **or falsy**
(i.e. `0`); the identical rule applies to the embedded bolus of a wizard
record when present; a wizard with no embedded bolus, and records of every
other kind, are always kept. -/
theorem getEvents_filter_spec (s : SimState) (e : Event) (he : e ∈ s.events) :
    (e.type = "bolus" →
      (e ∈ getEvents s ↔
        ¬(e.normal = some 0 ∧ (e.expectedNormal = none ∨ e.expectedNormal = some 0)))) ∧
    (e.type = "wizard" →
      (e ∈ getEvents s ↔
        ∀ b, e.bolus = some b →
          ¬(b.normal = some 0 ∧ (b.expectedNormal = none ∨ b.expectedNormal = some 0)))) ∧
    (e.type ≠ "bolus" → e.type ≠ "wizard" → e ∈ getEvents s) := by
  refine ⟨fun hb => ?_, fun hw => ?_, fun h1 h2 => ?_⟩
  · rw [mem_getEvents_iff he]
    simp only [keepEvent, hb, if_pos rfl]
    by_cases hc : e.normal = some 0 ∧ truthy e.expectedNormal = false
    · simp [hc, truthy_eq_false.mp hc.2, hc.1]
    · simp only [if_neg hc]
      simp only [not_and, ← truthy_eq_false]
      constructor
      · intro _ h
        exact fun hf => hc ⟨h, hf⟩
      · intro _
        rfl
  · rw [mem_getEvents_iff he]
    cases hb : e.bolus with
    | none =>
      have hkeep : keepEvent e = true := by simp [keepEvent, hw, hb]
      simp [hkeep, hb]
    | some b =>
      have hkeep : keepEvent e =
          (if b.normal = some 0 ∧ truthy b.expectedNormal = false then false else true) := by
        simp [keepEvent, hw, hb]
      rw [hkeep]
      by_cases hc : b.normal = some 0 ∧ truthy b.expectedNormal = false
      · rw [if_pos hc]
        refine iff_of_false (by simp) fun hall => ?_
        exact (hall b rfl) ⟨hc.1, truthy_eq_false.mp hc.2⟩
      · rw [if_neg hc]
        refine iff_of_true rfl fun b1 hb1 hcon => ?_
        cases hb1
        exact hc ⟨hcon.1, truthy_eq_false.mpr hcon.2⟩
  · rw [mem_getEvents_iff he]
    simp [keepEvent, h1, h2]

/-- Witness for the amended C3: the record `bolusZeroExp` (a bolus with
`normal = 0` and falsy `expectedNormal`) is in the log of
`stateBolusZero`, and by the characterization it is not in `getEvents()`. -/
theorem getEvents_filter_spec_witness :
    bolusZeroExp ∈ stateBolusZero.events ∧ bolusZeroExp.type = "bolus" ∧
    bolusZeroExp ∉ getEvents stateBolusZero :=
  ⟨by decide, rfl,
    fun hmem =>
      (((getEvents_filter_spec stateBolusZero bolusZeroExp (by decide)).1 rfl).mp hmem)
        ⟨rfl, Or.inr rfl⟩⟩

/-- C10: the filter tests `expectedNormal` by JS truthiness, not field
presence — a bolus with `normal = 0` whose `expectedNormal` is present but
`0` is dropped by `getEvents()`, and likewise for the embedded bolus of a
wizard record.  (In this integer model `0` is the only falsy number; the
source would treat `NaN` the same way.) -/
theorem truthiness_drop (s : SimState) (e : Event) (he : e ∈ s.events) :
    (e.type = "bolus" → e.normal = some 0 → e.expectedNormal = some 0 →
      e ∉ getEvents s) ∧
    (e.type = "wizard" → ∀ b, e.bolus = some b → b.normal = some 0 →
      b.expectedNormal = some 0 → e ∉ getEvents s) := by
  constructor
  · intro hb hn hx hmem
    rw [mem_getEvents_iff he] at hmem
    simp [keepEvent, hb, hn, hx, truthy] at hmem
  · intro hw b hb hn hx hmem
    rw [mem_getEvents_iff he] at hmem
    have hnb : e.type = "bolus" ↔ False := by simp [hw]
    simp [keepEvent, hw, hnb, hb, hn, hx, truthy] at hmem

/-- Witness for C10: the wizard record embedding a bolus with `normal = 0`
and `expectedNormal = 0` sits in the log but not in `getEvents()`. -/
theorem truthiness_drop_witness :
    wizardZeroExp ∈ stateWizardZero.events ∧
    wizardZeroExp ∉ getEvents stateWizardZero :=
  ⟨by decide,
    (truthiness_drop stateWizardZero wizardZeroExp (by decide)).2 rfl
      { normal := some 0, expectedNormal := some 0 } rfl rfl rfl⟩

/-- C4: `getEvents()` returns a permutation of the filtered log that is
sorted non-decreasingly by `time`, and the sort is stable: for every
timestamp `t`, the records of time `t` appear in the output in exactly the
order they occupy in the (filtered) internal log. -/
theorem getEvents_sorted_stable (s : SimState) :
    List.Perm (getEvents s) (s.events.filter keepEvent) ∧
    (getEvents s).Pairwise (fun a b => a.time ≤ b.time) ∧
    ∀ t : Int,
      (getEvents s).filter (fun e => decide (e.time = t)) =
        (s.events.filter keepEvent).filter (fun e => decide (e.time = t)) := by
  have htrans : ∀ (a b c : Event), timeLE a b → timeLE b c → timeLE a c := by
    intro a b c hab hbc
    simp only [timeLE, decide_eq_true_eq] at hab hbc ⊢
    omega
  have htotal : ∀ (a b : Event), timeLE a b || timeLE b a := by
    intro a b
    simp only [timeLE, Bool.or_eq_true, decide_eq_true_eq]
    omega
  refine ⟨?_, ?_, ?_⟩
  · rw [getEvents, sortByTime]
    exact List.mergeSort_perm _ _
  · rw [getEvents, sortByTime]
    refine (List.sorted_mergeSort htrans htotal (s.events.filter keepEvent)).imp ?_
    intro a b hab
    simpa [timeLE] using hab
  · intro t
    rw [getEvents, sortByTime]
    set f := s.events.filter keepEvent with hf
    set c := f.filter (fun e => decide (e.time = t)) with hc
    have hall : ∀ a ∈ c, a.time = t := by
      intro a ha
      have := List.of_mem_filter ha
      simpa using this
    have hpw : c.Pairwise (fun a b => timeLE a b) := by
      refine List.pairwise_of_forall_mem_list ?_
      intro a ha b hb
      simp [timeLE, hall a ha, hall b hb]
    have h1 : List.Sublist c (List.mergeSort f timeLE) :=
      List.sublist_mergeSort htrans htotal hpw (List.filter_sublist _)
    have hcc : c.filter (fun e => decide (e.time = t)) = c :=
      List.filter_eq_self.mpr (by intro a ha; simpa using hall a ha)
    have h2 : List.Sublist c
        ((List.mergeSort f timeLE).filter (fun e => decide (e.time = t))) := by
      have h3 := h1.filter (fun e => decide (e.time = t))
      rwa [hcc] at h3
    have hlen : ((List.mergeSort f timeLE).filter (fun e => decide (e.time = t))).length =
        c.length := by
      rw [← List.countP_eq_length_filter, ← List.countP_eq_length_filter]
      exact (List.mergeSort_perm f timeLE).countP_eq _
    exact (h2.eq_of_length hlen.symm).symm

/-- When `ensureTimestamp` throws, it returns the state untouched and the
ordering message. -/
lemma ensure_error_shape {e : Event} {s : SimState} {err : String}
    (h : (ensureTimestamp e s).1 = some err) :
    ensureTimestamp e s = (some "Timestamps must be in order.", s) := by
  cases hct : s.currTimestamp with
  | none => rw [ensureTimestamp_ok (Or.inl hct)] at h; simp at h
  | some t =>
    by_cases hgt : e.time < t
    · exact ensureTimestamp_throw hct hgt
    · rw [ensureTimestamp_ok (Or.inr ⟨t, hct, not_lt.mp hgt⟩)] at h; simp at h

/-- When `ensureTimestamp` does not throw, it only records the event's
time. -/
lemma ensure_success_shape {e : Event} {s : SimState}
    (h : (ensureTimestamp e s).1 = none) :
    ensureTimestamp e s = (none, { s with currTimestamp := some e.time }) := by
  cases hct : s.currTimestamp with
  | none => exact ensureTimestamp_ok (Or.inl hct)
  | some t =>
    by_cases hgt : e.time < t
    · rw [ensureTimestamp_throw hct hgt] at h; simp at h
    · exact ensureTimestamp_ok (Or.inr ⟨t, hct, not_lt.mp hgt⟩)

/-- A `simpleSimulate` call either throws with the state untouched, or
records the time and appends the event. -/
lemma simpleSimulate_shape (e : Event) (s : SimState) :
    simpleSimulate e s = (some "Timestamps must be in order.", s) ∨
    simpleSimulate e s =
      (none, { s with currTimestamp := some e.time, events := s.events ++ [e] }) := by
  rcases het : ensureTimestamp e s with ⟨e?, s0⟩
  cases e? with
  | some err =>
    left
    have hh := @ensure_error_shape e s err (by rw [het])
    rw [het] at hh
    simp only [simpleSimulate, het]
    exact hh
  | none =>
    right
    have hh := @ensure_success_shape e s (by rw [het])
    rw [het] at hh
    have hs0 : s0 = { s with currTimestamp := some e.time } := congrArg Prod.snd hh
    subst hs0
    simp only [simpleSimulate, het]

/-- A `basal` call either throws with the state untouched, or — having
recorded the time — installs the event as open segment when none was open,
or closes the open segment (its `type` preserved) and installs the event
with the snapshot link. -/
lemma basal_shape (e : Event) (s : SimState) :
    basal e s = (some "Timestamps must be in order.", s) ∨
    ((s.currBasal = none ∧
        basal e s = (none, { s with currTimestamp := some e.time, currBasal := some e })) ∨
      (∃ cb, s.currBasal = some cb ∧
        ∃ closed : Event, closed.type = cb.type ∧ closed.scheduleName = some "Unknown" ∧
          basal e s =
            (none,
              { s with
                  currTimestamp := some e.time,
                  events := s.events ++ [closed],
                  currBasal := some { e with previous := some (omitPrevious closed) } }))) := by
  rcases het : ensureTimestamp e s with ⟨e?, s0⟩
  cases e? with
  | some err =>
    left
    have hh := @ensure_error_shape e s err (by rw [het])
    rw [het] at hh
    simp only [basal, het]
    exact hh
  | none =>
    right
    have hh := @ensure_success_shape e s (by rw [het])
    rw [het] at hh
    have hs0 : s0 = { s with currTimestamp := some e.time } := congrArg Prod.snd hh
    subst hs0
    cases hcb : s.currBasal with
    | none =>
      left
      refine ⟨rfl, ?_⟩
      simp only [basal, het, hcb]
    | some cb =>
      right
      refine ⟨cb, rfl,
        { (if cb.duration = none then { cb with duration := some (e.time - cb.time) }
            else cb : Event) with scheduleName := some "Unknown" }, ?_, rfl, ?_⟩
      · by_cases hd : cb.duration = none <;> simp [hd]
      · simp only [basal, het, hcb]

/-- Every non-basal handler dispatches to `simpleSimulate`. -/
lemma handle_ne_basal {h : Handler} (e : Event) (s : SimState)
    (hh : h ≠ Handler.basal) : handle h e s = simpleSimulate e s := by
  cases h <;> first | rfl | exact absurd rfl hh

/-- The instrumented step agrees with the plain step on the state. -/
lemma stepCount_fst (p : SimState × Nat) (c : Cmd) : (stepCount p c).1 = stepCmd p.1 c := by
  cases c <;> rfl

/-- The instrumented fold agrees with the plain fold on the state. -/
lemma foldl_stepCount_fst (cmds : List Cmd) :
    ∀ p : SimState × Nat, (cmds.foldl stepCount p).1 = cmds.foldl stepCmd p.1 := by
  induction cmds with
  | nil => intro p; rfl
  | cons c cs ih =>
    intro p
    rw [List.foldl_cons, List.foldl_cons, ih, stepCount_fst]

/-- Appending a record adds one to `basalCount` exactly when the record is
of basal type. -/
lemma basalCount_append (l : List Event) (e : Event) :
    basalCount (l ++ [e]) = basalCount l + (if e.type = "basal" then 1 else 0) := by
  simp only [basalCount, List.countP_append, List.countP_cons, List.countP_nil]
  by_cases h : e.type = "basal" <;> simp [h]

/-- One instrumented step preserves the basal-accounting invariant: the
basal records in the log plus the open segment (if any) number exactly the
accepted basal calls, the counter is zero while no segment is open, and the
open segment is always of basal type. -/
lemma stepCount_inv (c : Cmd) (s : SimState) (n : Nat) (hwc : wellTypedCmd c)
    (h1 : basalCount s.events + (if s.currBasal.isSome then 1 else 0) = n)
    (h2 : s.currBasal = none → n = 0)
    (h3 : ∀ b, s.currBasal = some b → b.type = "basal") :
    (basalCount (stepCount (s, n) c).1.events
        + (if (stepCount (s, n) c).1.currBasal.isSome then 1 else 0) = (stepCount (s, n) c).2) ∧
    ((stepCount (s, n) c).1.currBasal = none → (stepCount (s, n) c).2 = 0) ∧
    (∀ b, (stepCount (s, n) c).1.currBasal = some b → b.type = "basal") := by
  cases c with
  | finalB => exact ⟨h1, h2, h3⟩
  | evt h e =>
    by_cases hh : h = Handler.basal
    · subst hh
      have hty : e.type = "basal" := hwc.mpr rfl
      rcases basal_shape e s with hb | hcases
      · simp only [stepCount, handle, hb]
        refine ⟨?_, ?_, h3⟩
        · simpa using h1
        · intro hcn
          simpa using h2 hcn
      · rcases hcases with ⟨hcb, hb⟩ | ⟨cb, hcb, closed, hct, hcs, hb⟩
        · have hn0 : n = 0 := h2 hcb
          simp only [stepCount, handle, hb]
          refine ⟨?_, ?_, ?_⟩
          · have h1e : basalCount s.events = 0 := by
              rw [hcb] at h1
              simpa [hn0] using h1
            simp [h1e, hn0]
          · intro hcn
            simp at hcn
          · intro b hbq
            simp at hbq
            rw [← hbq]
            exact hty
        · have hcbt : cb.type = "basal" := h3 cb hcb
          have h1e : basalCount s.events + 1 = n := by
            rw [hcb] at h1
            simpa using h1
          simp only [stepCount, handle, hb]
          refine ⟨?_, ?_, ?_⟩
          · simp [basalCount_append, hct, hcbt]
            omega
          · intro hcn
            simp at hcn
          · intro b hbq
            simp at hbq
            rw [← hbq]
            exact hty
    · have hty : e.type ≠ "basal" := fun hb => hh (hwc.mp hb)
      rcases simpleSimulate_shape e s with hb | hb
      · simp only [stepCount, handle_ne_basal e s hh, hb]
        refine ⟨?_, ?_, h3⟩
        · simpa [hh] using h1
        · intro hcn
          simpa [hh] using h2 hcn
      · simp only [stepCount, handle_ne_basal e s hh, hb]
        refine ⟨?_, ?_, ?_⟩
        · simp [basalCount_append, hty, hh]
          omega
        · intro hcn
          simp [hh, h2 hcn]
        · intro b hbq
          exact h3 b hbq

/-- The basal-accounting invariant holds after any well-typed instrumented
fold. -/
lemma foldl_stepCount_inv (cmds : List Cmd) :
    ∀ p : SimState × Nat, (∀ c ∈ cmds, wellTypedCmd c) →
      (basalCount p.1.events + (if p.1.currBasal.isSome then 1 else 0) = p.2) →
      (p.1.currBasal = none → p.2 = 0) →
      (∀ b, p.1.currBasal = some b → b.type = "basal") →
      ((basalCount (cmds.foldl stepCount p).1.events
          + (if (cmds.foldl stepCount p).1.currBasal.isSome then 1 else 0)
        = (cmds.foldl stepCount p).2) ∧
      ((cmds.foldl stepCount p).1.currBasal = none → (cmds.foldl stepCount p).2 = 0) ∧
      (∀ b, (cmds.foldl stepCount p).1.currBasal = some b → b.type = "basal")) := by
  induction cmds with
  | nil => intro p _ h1 h2 h3; exact ⟨h1, h2, h3⟩
  | cons c cs ih =>
    intro p hw h1 h2 h3
    have hstep := stepCount_inv c p.1 p.2 (hw c (List.mem_cons_self c cs)) h1 h2 h3
    rw [List.foldl_cons]
    exact ih (stepCount p c) (fun d hd => hw d (List.mem_cons_of_mem c hd))
      hstep.1 hstep.2.1 hstep.2.2

/-- A basal-typed record always passes the `getEvents` filter. -/
lemma keepEvent_basal {e : Event} (h : e.type = "basal") : keepEvent e = true := by
  simp [keepEvent, h]

/-- Sorting and filtering do not change the number of basal records:
`getEvents` returns as many basal records as the log holds. -/
lemma basalCount_getEvents (s : SimState) : basalCount (getEvents s) = basalCount s.events := by
  rw [basalCount, getEvents, sortByTime, (List.mergeSort_perm _ _).countP_eq,
    List.countP_filter, basalCount]
  refine List.countP_congr ?_
  intro e _
  by_cases h : e.type = "basal"
  · simp [h, keepEvent_basal h]
  · simp [h]

/-- C8: a trailing open basal segment is never emitted.  For every
well-typed call sequence: `finalBasal()` is a no-op (it changes no state
and emits nothing); the log — and hence the `getEvents()` output — holds
exactly one basal record fewer than the number of accepted basal events
(and none when there were none), the missing one being the open segment
`currBasal`, which is occupied exactly when some basal call was accepted. -/
theorem trailing_open_basal_never_emitted (cmds : List Cmd)
    (hw : ∀ c ∈ cmds, wellTypedCmd c) :
    finalBasal (run cmds) = run cmds ∧
    basalCount (run cmds).events = (runCount cmds).2 - 1 ∧
    basalCount (getEvents (run cmds)) = (runCount cmds).2 - 1 ∧
    ((run cmds).currBasal = none → (runCount cmds).2 = 0) ∧
    ((run cmds).currBasal.isSome → (runCount cmds).2 ≠ 0) := by
  have hfst : (runCount cmds).1 = run cmds := foldl_stepCount_fst cmds (initState, 0)
  have hinv := foldl_stepCount_inv cmds (initState, 0) hw (by simp [initState, basalCount])
    (fun _ => rfl) (by intro b hb; simp [initState] at hb)
  rw [show List.foldl stepCount (initState, 0) cmds = runCount cmds from rfl, hfst] at hinv
  obtain ⟨h1, h2, h3⟩ := hinv
  have hcount : basalCount (run cmds).events = (runCount cmds).2 - 1 := by
    cases hcb : (run cmds).currBasal with
    | none =>
      rw [hcb] at h1
      simp at h1
      have hz := h2 hcb
      omega
    | some b =>
      rw [hcb] at h1
      simp at h1
      omega
  refine ⟨rfl, hcount, ?_, ?_, ?_⟩
  · rw [basalCount_getEvents]
    exact hcount
  · intro hcb
    exact h2 hcb
  · intro hsome hzero
    cases hcb : (run cmds).currBasal with
    | none => rw [hcb] at hsome; simp at hsome
    | some b =>
      rw [hcb] at h1
      simp at h1
      omega

/-- Witness for C8: feeding two basal events with an alarm in between, two
basal calls are accepted, yet the log and `getEvents()` hold exactly one
basal record — the trailing open segment (the second basal) is absent —
and `finalBasal()` leaves the state unchanged. -/
theorem trailing_open_basal_never_emitted_witness :
    (∀ c ∈ cmdsTwoBasals, wellTypedCmd c) ∧
    finalBasal (run cmdsTwoBasals) = run cmdsTwoBasals ∧
    basalCount (run cmdsTwoBasals).events = (runCount cmdsTwoBasals).2 - 1 ∧
    basalCount (getEvents (run cmdsTwoBasals)) = (runCount cmdsTwoBasals).2 - 1 ∧
    ((run cmdsTwoBasals).currBasal = none → (runCount cmdsTwoBasals).2 = 0) ∧
    ((run cmdsTwoBasals).currBasal.isSome → (runCount cmdsTwoBasals).2 ≠ 0) :=
  have hw : ∀ c ∈ cmdsTwoBasals, wellTypedCmd c := by
    intro c hc
    simp only [cmdsTwoBasals, List.mem_cons, List.not_mem_nil, or_false] at hc
    rcases hc with h | h | h <;> subst h <;> simp [wellTypedCmd, basalNamed, alarmAt3, basalLater]
  ⟨hw, trailing_open_basal_never_emitted cmdsTwoBasals hw⟩

end ChromeUploader
